import Mathlib

/-!
Verification of the kNN-DTA dual-encoder DTI model against its source.

Shallow embedding of
  src/knn_dta/models/dti_knn_from_pretrained_roberta_no_cross_attn_1.py
  src/knn_dta/models/custom_roberta/hub_interface.py

Tensors are modelled per batch row: a pooled embedding is a `List ℚ`
(rationals idealise floats); an encoder output `x : (B, T, C)` is modelled as
the `T × C` slice of one batch row, `List (List ℚ)`, so `x[:, 0, :]` is the
head of that list. `torch.cat(·, 1)` on two batch rows is list append, and
`unsqueeze(1)` only inserts a singleton dimension, so it is invisible at the
per-row vector level. Python dicts (state dicts) are association lists in
insertion order with the usual update-in-place / append-at-end semantics.
-/

namespace KNNDTA

/-- Pointwise scalar multiplication, the model of `a * tensor` broadcasting. -/
def vecScale (a : ℚ) (v : List ℚ) : List ℚ := v.map (fun x => a * x)

/-- Pointwise addition, the model of `tensor + tensor`. -/
def vecAdd (v w : List ℚ) : List ℚ := List.zipWith (fun x y => x + y) v w

/-- `x[:, 0, :]` on one batch row: first position of the encoder output. -/
def pooled (x : List (List ℚ)) : List ℚ := x.headD []

/-- `GradMultiply.apply(x, scale)` (fairseq, external to this repository).
Per the spec glossary, gradient scaling is "a multiplier applied to a tensor
purely to control the magnitude of gradients flowing backward through it,
without changing forward values", so its forward semantics is the identity. -/
def gradMultiply (x : List ℚ) (_scale : ℚ) : List ℚ := x

/-- The fusion expression `alpha * (w * e + (1 - w) * k)` at lines 328/342/350
of dti_knn_from_pretrained_roberta_no_cross_attn_1.py. -/
def fuse (alpha w : ℚ) (e k : List ℚ) : List ℚ :=
  vecScale alpha (vecAdd (vecScale w e) (vecScale (1 - w) k))

/-- Python runtime errors that the forward path can raise. -/
inductive PyError where
  | unboundLocalError (name : String)
  | keyError (name : String)
deriving DecidableEq, Repr

/-- The two shapes `forward` can return: a bare molecule CLS tensor
(`get_only_mol_cls` path, line 317) or the triple of lines 337/350. -/
inductive ForwardResult where
  | molCls (x : List ℚ)
  | triple (logits : Option (List ℚ)) (out0 out1 : List ℚ)
deriving DecidableEq, Repr

/-- The model state used by `forward`: the two encoder branches (opaque
external transformers; argument 1 is `features_only`), the
`classification_heads` dict, `args.grad_multiply`, and each branch encoder's
`max_positions()` used by the hub interface. -/
structure Model where
  enc0 : Bool → List Nat → List (List ℚ)
  enc1 : Bool → List Nat → List (List ℚ)
  heads : String → Option (List ℚ → List ℚ)
  grad_multiply : ℚ
  maxPos0 : Nat
  maxPos1 : Nat

/-- The keyword arguments of
`RobertaDTIKNNFromPretrainedRobertaNoCrossAttn1.forward` (lines 292-309),
with the source's default values. The Python scalar-`0` sentinel defaults for
`knn_cls_0`, `knn_cls_1`, `cls_0`, `cls_1` are modelled as empty vectors. -/
structure ForwardArgs where
  src_tokens_0 : List Nat
  src_tokens_1 : List Nat
  knn_cls_0 : List ℚ := []
  knn_cls_1 : List ℚ := []
  features_only : Bool := false
  return_all_hiddens : Bool := false
  classification_head_name : Option String := none
  use_which_embedding : String := "no"
  knn_embedding_weight_0 : ℚ := 8/10
  knn_embedding_weight_1 : ℚ := 8/10
  alpha : ℚ := 707/1000
  use_only_mlp : Bool := false
  get_only_mol_cls : Bool := false
  cls_0 : List ℚ := []
  cls_1 : List ℚ := []

/-- `forward` (lines 292-350). The local variable `x` is only assigned under
`if classification_head_name is not None:`; the returns at lines 337 and 350
read `x` unconditionally, so with no head name given Python raises
`UnboundLocalError` — modelled as `PyError.unboundLocalError "x"`. A head
name with no registered head raises `KeyError` at lines 334/348. The source
writes the full branch as `if not use_only_mlp: ... else: ...`; here the two
branches are swapped accordingly. -/
def forward (m : Model) (a : ForwardArgs) : Except PyError ForwardResult :=
  let features_only := if a.classification_head_name.isSome then true else a.features_only
  if a.get_only_mol_cls then
    Except.ok (ForwardResult.molCls (pooled (m.enc0 features_only a.src_tokens_0)))
  else
    if a.use_only_mlp then
      match a.classification_head_name with
      | some name =>
        let xin :=
          if a.use_which_embedding = "mol_pro" then
            fuse a.alpha a.knn_embedding_weight_0 a.cls_0 a.knn_cls_0 ++
              fuse a.alpha a.knn_embedding_weight_1 a.cls_1 a.knn_cls_1
          else
            a.cls_1 ++ a.cls_1
        let xg := gradMultiply xin m.grad_multiply
        match m.heads name with
        | some head =>
          Except.ok (ForwardResult.triple (some (head xg))
            (fuse a.alpha a.knn_embedding_weight_0 a.cls_0 a.knn_cls_0)
            (fuse a.alpha a.knn_embedding_weight_1 a.cls_1 a.knn_cls_1))
        | none => Except.error (PyError.keyError name)
      | none => Except.error (PyError.unboundLocalError "x")
    else
      let x0 := pooled (m.enc0 features_only a.src_tokens_0)
      let x1 := pooled (m.enc1 features_only a.src_tokens_1)
      match a.classification_head_name with
      | some name =>
        let xin :=
          if a.use_which_embedding = "mol_pro" then
            fuse a.alpha a.knn_embedding_weight_0 x0 a.knn_cls_0 ++
              fuse a.alpha a.knn_embedding_weight_1 x1 a.knn_cls_1
          else
            x0 ++ x1
        let xg := gradMultiply xin m.grad_multiply
        match m.heads name with
        | some head => Except.ok (ForwardResult.triple (some (head xg)) x0 x1)
        | none => Except.error (PyError.keyError name)
      | none => Except.error (PyError.unboundLocalError "x")

/-- The structured content of the `ValueError` raised by
`RobertaHubInterface.myextract_features_separate` (hub_interface.py lines
182-194): the message format is
"tokens_i exceeds maximum length: length > limit". -/
structure LenErr where
  branch : String
  length : Nat
  limit : Nat
deriving DecidableEq, Repr

/-- `RobertaHubInterface.myextract_features_separate` (hub_interface.py lines
175-209), restricted to the per-row length guard and the model invocation.
`tokens.size(-1)` is the sequence length (the `dim() == 1` unsqueeze does not
change it). On success the inner model is called with `features_only=True`
and the given classification head name, all other forward arguments at their
defaults. -/
def myextract_features_separate (m : Model) (tokens_0 tokens_1 : List Nat)
    (return_all_hiddens : Bool) (classification_head_name : String) :
    Except LenErr (Except PyError ForwardResult) :=
  if tokens_0.length > m.maxPos0 then
    Except.error ⟨"tokens_0", tokens_0.length, m.maxPos0⟩
  else if tokens_1.length > m.maxPos1 then
    Except.error ⟨"tokens_1", tokens_1.length, m.maxPos1⟩
  else
    Except.ok (forward m
      { src_tokens_0 := tokens_0
        src_tokens_1 := tokens_1
        features_only := true
        return_all_hiddens := return_all_hiddens
        classification_head_name := some classification_head_name })

instance instDecEqExcept {e a : Type} [DecidableEq e] [DecidableEq a] :
    DecidableEq (Except e a) := fun x y =>
  match x, y with
  | .ok v, .ok w =>
    if h : v = w then isTrue (by rw [h]) else isFalse (fun hc => h (by cases hc; rfl))
  | .error v, .error w =>
    if h : v = w then isTrue (by rw [h]) else isFalse (fun hc => h (by cases hc; rfl))
  | .ok _, .error _ => isFalse (fun hc => Except.noConfusion hc)
  | .error _, .ok _ => isFalse (fun hc => Except.noConfusion hc)

/-! ## State-dict transfer (`upgrade_state_dict_with_roberta_weights`) -/

/-- Python's `s.startswith(p)`: the first `len(p)` code points of `s` equal
`p` (`String.data` is the code-point list of a Lean string). -/
def pyStartsWith (s p : String) : Bool := s.data.take p.data.length == p.data

/-- Python's `s[n:]`, slicing by code points. -/
def pyDrop (s : String) (n : Nat) : String := String.mk (s.data.drop n)

/-- `d.keys()` of a Python dict modelled as an association list. -/
def dictKeys {V : Type} (d : List (String × V)) : List String := d.map Prod.fst

/-- `k in d.keys()`. -/
def dictMem {V : Type} (d : List (String × V)) (k : String) : Prop :=
  k ∈ dictKeys d

instance {V : Type} (d : List (String × V)) (k : String) :
    Decidable (dictMem d k) :=
  inferInstanceAs (Decidable (k ∈ dictKeys d))

/-- `d[k]` as an option (Python dicts have unique keys; lookup is the first
entry with key `k`). -/
def dictGet {V : Type} (d : List (String × V)) (k : String) : Option V :=
  match d with
  | [] => none
  | p :: rest => if p.1 = k then some p.2 else dictGet rest k

/-- `d[k] = v`: update in place when the key is present, else append at the
end — Python dict assignment in insertion order. -/
def dictSet {V : Type} (d : List (String × V)) (k : String) (v : V) :
    List (String × V) :=
  if dictMem d k then d.map (fun p => if p.1 = k then (k, v) else p)
  else d ++ [(k, v)]

/-- The removal effected by `d.pop(k)`. -/
def dictPop {V : Type} (d : List (String × V)) (k : String) : List (String × V) :=
  d.filter (fun p => decide (p.1 ≠ k))

/-- `if old in d.keys(): d[new] = d.pop(old)` — the legacy rename pattern of
lines 415-418. -/
def renameKey {V : Type} (d : List (String × V)) (old new : String) :
    List (String × V) :=
  match dictGet d old with
  | some v => dictSet (dictPop d old) new v
  | none => d

/-- Lines 415-418: rename `encoder.sentence_encoder.layernorm_embedding.weight`
then `....bias` to the `emb_layer_norm` names inside the checkpoint dict. -/
def renameLegacy {V : Type} (d : List (String × V)) : List (String × V) :=
  renameKey
    (renameKey d "encoder.sentence_encoder.layernorm_embedding.weight"
      "encoder.sentence_encoder.emb_layer_norm.weight")
    "encoder.sentence_encoder.layernorm_embedding.bias"
    "encoder.sentence_encoder.emb_layer_norm.bias"

/-- The loop of lines 419-426: for each checkpoint key starting with
`"encoder"`, drop the first `len("encoder") + 1 = 8` characters
(`key[len("encoder") + 1:]`) and, when the result is a key of the target
state dict, overwrite that target entry and count the transfer. -/
def upgradeLoop {V : Type} (sd : List (String × V)) :
    List (String × V) → Nat → List (String × V) × Nat
  | [], i => (sd, i)
  | (key, v) :: rest, i =>
    if pyStartsWith key "encoder" then
      let subkey := pyDrop key 8
      if dictMem sd subkey then upgradeLoop (dictSet sd subkey v) rest (i + 1)
      else upgradeLoop sd rest i
    else upgradeLoop sd rest i

/-- `upgrade_state_dict_with_roberta_weights` (lines 380-428), with the
checkpoint I/O abstracted away: `rb` is the loaded `state["model"]` dict.
The second component is the transferred-entry count `i` logged at line 427;
the source returns only the updated `state_dict`. -/
def upgrade_state_dict_with_roberta_weights {V : Type}
    (sd rb : List (String × V)) : List (String × V) × Nat :=
  upgradeLoop sd (renameLegacy rb) 0

/-- The value the loop leaves at target key `k`: the value of the LAST
checkpoint entry (in iteration order, after the legacy rename) whose key
starts with `"encoder"` and equals `k` after dropping its first 8
characters; `none` when no entry matches `k`. -/
def lastTransferredValue {V : Type} : List (String × V) → String → Option V
  | [], _ => none
  | p :: rest, k =>
    match lastTransferredValue rest k with
    | some v => some v
    | none =>
      if pyStartsWith p.1 "encoder" = true ∧ pyDrop p.1 8 = k then some p.2
      else none

/-! ## Build-time max-position defaults (`build_model`, lines 221-224) -/

def DEFAULT_MAX_MOLECULE_POSITIONS : Nat := 512
def DEFAULT_MAX_PROTEIN_POSITIONS : Nat := 1024

/-- The attributes of `args` involved in the per-branch max-position logic.
`none` models an absent attribute (`not hasattr`). -/
structure BuildArgs where
  max_positions_molecule : Option Nat
  max_positions_protein : Option Nat
  max_source_positions : Option Nat
  max_target_positions : Option Nat
deriving DecidableEq, Repr

/-- Lines 221-224 of `build_model`:
`if not hasattr(args, 'max_positions_molecule'): args.max_source_positions = DEFAULT_MAX_MOLECULE_POSITIONS`
and the protein/target analogue. Note the attribute tested and the attribute
assigned differ. -/
def applyMaxPositionDefaults (a : BuildArgs) : BuildArgs :=
  let a1 :=
    if a.max_positions_molecule.isSome then a
    else { a with max_source_positions := some DEFAULT_MAX_MOLECULE_POSITIONS }
  if a1.max_positions_protein.isSome then a1
  else { a1 with max_target_positions := some DEFAULT_MAX_PROTEIN_POSITIONS }

/-- Modelled from the spec: `DTIRobertaEncoder`
(fairseq/models/custom_roberta/model.py, part of this repository but not
under src/) takes the max-positions value as its third constructor argument
and bounds that branch's token sequences by it ("each independently bounded
by a max-position limit specific to its branch").
`MoleculeEncoderFromPretrainedRoberta.__init__` (line 433) passes
`args.max_positions_molecule`; reading an absent attribute raises
`AttributeError`, modelled as `none`. -/
def moleculeEncoderMaxPositions (a : BuildArgs) : Option Nat :=
  a.max_positions_molecule

/-- Modelled from the spec: protein analogue of `moleculeEncoderMaxPositions`
(`ProteinEncoderFromPretrainedRoberta.__init__`, line 452, passes
`args.max_positions_protein`). -/
def proteinEncoderMaxPositions (a : BuildArgs) : Option Nat :=
  a.max_positions_protein

/-! ## Encoder freezing policy (`build_model`, lines 236-254) -/

/-- One top-level child of `encoder.sentence_encoder`: the `requires_grad`
flags of the parameters it owns directly (not inside any sub-child), and of
each immediate sub-child's parameters. `child.parameters()` is `direct` plus
every list in `subs` flattened. -/
structure Child where
  direct : List Bool
  subs : List (List Bool)
deriving DecidableEq, Repr

/-- `for param in child.parameters(): param.requires_grad = False`. -/
def freezeAllParams (c : Child) : Child :=
  { direct := c.direct.map (fun _ => false)
    subs := c.subs.map (fun s => s.map (fun _ => false)) }

/-- The inner loop `for j, child_child in enumerate(child.children())`
starting at index `j`: freeze every parameter of sub-children with index
`≤ 11`. -/
def freezeSubs : Nat → List (List Bool) → List (List Bool)
  | _, [] => []
  | j, s :: rest =>
    (if j ≤ 11 then s.map (fun _ => false) else s) :: freezeSubs (j + 1) rest

/-- The body of the outer loop at child index `i` (lines 237-244): children
with `i <= 3` are frozen entirely; otherwise only sub-children with
`j <= 11` are frozen. -/
def freezeChild (i : Nat) (c : Child) : Child :=
  if i ≤ 3 then freezeAllParams c
  else { c with subs := freezeSubs 0 c.subs }

/-- `for i, child in enumerate(encoder.sentence_encoder.children())`
starting at index `i`. -/
def freezeChildren : Nat → List Child → List Child
  | _, [] => []
  | i, c :: rest => freezeChild i c :: freezeChildren (i + 1) rest

/-- The freezing performed by `build_model` on both branch encoders
(lines 236-254): the same index-based policy applied to `encoder_0` and
`encoder_1`. -/
def buildModelFreeze (enc0 enc1 : List Child) : List Child × List Child :=
  (freezeChildren 0 enc0, freezeChildren 0 enc1)

/-! ## Theorems about the forward pass -/

/-- Componentwise reading of the fusion expression: fusing `e` with `k` at
weight `w` and scale `alpha` multiplies matching components as
`alpha * (w * e_i + (1 - w) * k_i)`. -/
theorem fuse_eq_zipWith (alpha w : ℚ) (e k : List ℚ) :
    fuse alpha w e k =
      List.zipWith (fun x y => alpha * (w * x + (1 - w) * y)) e k := by
  unfold fuse vecScale vecAdd
  induction e generalizing k with
  | nil => simp
  | cons x xs ih =>
    cases k with
    | nil => simp
    | cons y ys => simpa using ih ys

/-- A concrete model instance: both encoders return a fixed feature row and
every head name is registered with the identity head. -/
def exModel : Model :=
  { enc0 := fun _ _ => [[1, 2]]
    enc1 := fun _ _ => [[3, 4]]
    heads := fun _ => some (fun v => v)
    grad_multiply := 1
    maxPos0 := 512
    maxPos1 := 1024 }

/-- Concrete forward arguments: full dual-branch mode, head given,
`use_which_embedding = 'mol_pro'`, default weights, neighbor embeddings
supplied. -/
def exArgsMolPro : ForwardArgs :=
  { src_tokens_0 := [5]
    src_tokens_1 := [6]
    classification_head_name := some "h"
    use_which_embedding := "mol_pro"
    knn_cls_0 := [1, 1]
    knn_cls_1 := [1, 1] }

/-- C1: with a classification head name given and `use_which_embedding =
'mol_pro'`, in full dual-branch mode and in precomputed-embedding mode
alike, the input passed to the classification head is the concatenation of
`alpha * (w0 * mol_embedding + (1 - w0) * knn_cls_0)` and
`alpha * (w1 * pro_embedding + (1 - w1) * knn_cls_1)`, blended independently
per branch; with the default `w = 8/10` and `alpha = 707/1000` each fused
component equals `0.707 * (0.8 * e + 0.2 * k)`. -/
theorem forward_molPro_head_input_eq_blend (m : Model) (a : ForwardArgs)
    (name : String) (head : List ℚ → List ℚ)
    (hname : a.classification_head_name = some name)
    (hhead : m.heads name = some head)
    (hmode : a.use_which_embedding = "mol_pro")
    (hmol : a.get_only_mol_cls = false) :
    (a.use_only_mlp = false →
      forward m a = Except.ok (ForwardResult.triple
        (some (head (
          vecScale a.alpha (vecAdd
            (vecScale a.knn_embedding_weight_0 (pooled (m.enc0 true a.src_tokens_0)))
            (vecScale (1 - a.knn_embedding_weight_0) a.knn_cls_0)) ++
          vecScale a.alpha (vecAdd
            (vecScale a.knn_embedding_weight_1 (pooled (m.enc1 true a.src_tokens_1)))
            (vecScale (1 - a.knn_embedding_weight_1) a.knn_cls_1)))))
        (pooled (m.enc0 true a.src_tokens_0))
        (pooled (m.enc1 true a.src_tokens_1)))) ∧
    (a.use_only_mlp = true →
      forward m a = Except.ok (ForwardResult.triple
        (some (head (
          vecScale a.alpha (vecAdd
            (vecScale a.knn_embedding_weight_0 a.cls_0)
            (vecScale (1 - a.knn_embedding_weight_0) a.knn_cls_0)) ++
          vecScale a.alpha (vecAdd
            (vecScale a.knn_embedding_weight_1 a.cls_1)
            (vecScale (1 - a.knn_embedding_weight_1) a.knn_cls_1)))))
        (vecScale a.alpha (vecAdd
          (vecScale a.knn_embedding_weight_0 a.cls_0)
          (vecScale (1 - a.knn_embedding_weight_0) a.knn_cls_0)))
        (vecScale a.alpha (vecAdd
          (vecScale a.knn_embedding_weight_1 a.cls_1)
          (vecScale (1 - a.knn_embedding_weight_1) a.knn_cls_1))))) ∧
    (∀ e k : List ℚ,
      fuse (707/1000) (8/10) e k =
        List.zipWith (fun x y => (707/1000) * ((8/10) * x + (2/10) * y)) e k) := by
  refine ⟨fun hmlp => ?_, fun hmlp => ?_, fun e k => ?_⟩
  · simp [forward, hname, hhead, hmode, hmol, hmlp, fuse, gradMultiply]
  · simp [forward, hname, hhead, hmode, hmol, hmlp, fuse, gradMultiply]
  · rw [fuse_eq_zipWith]
    have hfg : (fun x y : ℚ => (707/1000 : ℚ) * ((8/10) * x + (1 - 8/10) * y)) =
        (fun x y : ℚ => (707/1000 : ℚ) * ((8/10) * x + (2/10) * y)) := by
      funext x y
      norm_num
    rw [hfg]

/-- C1 witness: the fused head input at a concrete model and concrete
mol_pro arguments, obtained from `forward_molPro_head_input_eq_blend`. -/
theorem forward_molPro_head_input_eq_blend_witness :
    forward exModel exArgsMolPro = Except.ok (ForwardResult.triple
      (some [707/1000, 6363/5000, 9191/5000, 12019/5000]) [1, 2] [3, 4]) := by
  have h := (forward_molPro_head_input_eq_blend exModel exArgsMolPro "h"
    (fun v => v) rfl rfl rfl rfl).1 rfl
  rw [h]
  norm_num [vecScale, vecAdd, pooled, exModel, exArgsMolPro]

/-- Concrete forward arguments with no classification head name, full
dual-branch mode. -/
def exArgsNoHead : ForwardArgs :=
  { src_tokens_0 := [5]
    src_tokens_1 := [6] }

/-- C2 counterexample: in full dual-branch mode with no classification head
name, `forward` does not return a triple with first component none — the
return statement reads the never-assigned local `x`, so the call raises
`UnboundLocalError`. -/
theorem forward_full_no_head_raises :
    forward exModel exArgsNoHead = Except.error (PyError.unboundLocalError "x") ∧
    ¬ ∃ r, forward exModel exArgsNoHead = Except.ok r := by
  constructor
  · rfl
  · rintro ⟨r, hr⟩
    rw [show forward exModel exArgsNoHead
        = Except.error (PyError.unboundLocalError "x") from rfl] at hr
    exact Except.noConfusion hr

/-- C2 amended: in full dual-branch mode, when a classification head name is
given and a head is registered under it, `forward` returns the triple of the
logits and the two raw first-position pooled embeddings; when no head name
is given, the return statement reads the never-assigned local `x` and the
call fails with `UnboundLocalError` instead of returning a triple with first
component none. -/
theorem forward_full_mode_returns (m : Model) (a : ForwardArgs)
    (hmol : a.get_only_mol_cls = false)
    (hmlp : a.use_only_mlp = false) :
    (∀ name head, a.classification_head_name = some name →
      m.heads name = some head →
      ∃ l, forward m a = Except.ok (ForwardResult.triple (some l)
        (pooled (m.enc0 true a.src_tokens_0))
        (pooled (m.enc1 true a.src_tokens_1)))) ∧
    (a.classification_head_name = none →
      forward m a = Except.error (PyError.unboundLocalError "x")) := by
  constructor
  · intro name head hname hhead
    refine ⟨head (gradMultiply
      (if a.use_which_embedding = "mol_pro" then
        fuse a.alpha a.knn_embedding_weight_0 (pooled (m.enc0 true a.src_tokens_0)) a.knn_cls_0 ++
          fuse a.alpha a.knn_embedding_weight_1 (pooled (m.enc1 true a.src_tokens_1)) a.knn_cls_1
      else pooled (m.enc0 true a.src_tokens_0) ++ pooled (m.enc1 true a.src_tokens_1))
      m.grad_multiply), ?_⟩
    by_cases hmode : a.use_which_embedding = "mol_pro" <;>
      simp [forward, hname, hhead, hmol, hmlp, hmode]
  · intro hname
    simp [forward, hname, hmol, hmlp]

/-- C2 witness: the amended behaviour at concrete inputs — a successful
triple with the raw pooled embeddings when a registered head name is given,
and the unbound-local error when none is. -/
theorem forward_full_mode_returns_witness :
    (∃ l, forward exModel exArgsMolPro = Except.ok (ForwardResult.triple
      (some l) [1, 2] [3, 4])) ∧
    forward exModel exArgsNoHead = Except.error (PyError.unboundLocalError "x") := by
  constructor
  · have h := (forward_full_mode_returns exModel exArgsMolPro rfl rfl).1
      "h" (fun v => v) rfl rfl
    simpa [exModel, pooled] using h
  · exact (forward_full_mode_returns exModel exArgsNoHead rfl rfl).2 rfl

/-- Concrete forward arguments: precomputed-embedding mode, head given,
mode other than mol_pro. -/
def exArgsMlpOther : ForwardArgs :=
  { src_tokens_0 := []
    src_tokens_1 := []
    classification_head_name := some "h"
    use_which_embedding := "pro"
    use_only_mlp := true
    cls_0 := [10, 20]
    cls_1 := [30, 40]
    knn_cls_0 := [1, 1]
    knn_cls_1 := [1, 1] }

/-- C3: in precomputed-embedding mode with a classification head name given
and `use_which_embedding` not equal to `'mol_pro'`, the input passed to the
classification head is `cls_1` concatenated with itself; `cls_0` does not
appear in the head input. -/
theorem forward_mlp_other_mode_head_input (m : Model) (a : ForwardArgs)
    (name : String) (head : List ℚ → List ℚ)
    (hname : a.classification_head_name = some name)
    (hhead : m.heads name = some head)
    (hmode : a.use_which_embedding ≠ "mol_pro")
    (hmol : a.get_only_mol_cls = false)
    (hmlp : a.use_only_mlp = true) :
    forward m a = Except.ok (ForwardResult.triple
      (some (head (a.cls_1 ++ a.cls_1)))
      (fuse a.alpha a.knn_embedding_weight_0 a.cls_0 a.knn_cls_0)
      (fuse a.alpha a.knn_embedding_weight_1 a.cls_1 a.knn_cls_1)) := by
  simp [forward, hname, hhead, hmode, hmol, hmlp, gradMultiply]

/-- C3 witness: at concrete precomputed embeddings `cls_0 = [10, 20]`,
`cls_1 = [30, 40]` and mode `'pro'`, the identity head receives
`cls_1 ++ cls_1 = [30, 40, 30, 40]`. -/
theorem forward_mlp_other_mode_head_input_witness :
    forward exModel exArgsMlpOther = Except.ok (ForwardResult.triple
      (some [30, 40, 30, 40])
      (fuse (707/1000) (8/10) [10, 20] [1, 1])
      (fuse (707/1000) (8/10) [30, 40] [1, 1])) := by
  have h := forward_mlp_other_mode_head_input exModel exArgsMlpOther "h"
    (fun v => v) rfl rfl (by decide) rfl rfl
  simpa [exArgsMlpOther] using h

/-- C4: in precomputed-embedding mode, whenever `forward` returns a triple,
its second and third components are `alpha * (w0 * cls_0 + (1 - w0) * knn_cls_0)`
and `alpha * (w1 * cls_1 + (1 - w1) * knn_cls_1)` — the mol_pro blend
formula — whatever `use_which_embedding` is. -/
theorem forward_mlp_returns_blends (m : Model) (a : ForwardArgs)
    (l : Option (List ℚ)) (out0 out1 : List ℚ)
    (hmol : a.get_only_mol_cls = false)
    (hmlp : a.use_only_mlp = true)
    (h : forward m a = Except.ok (ForwardResult.triple l out0 out1)) :
    out0 = vecScale a.alpha (vecAdd (vecScale a.knn_embedding_weight_0 a.cls_0)
      (vecScale (1 - a.knn_embedding_weight_0) a.knn_cls_0)) ∧
    out1 = vecScale a.alpha (vecAdd (vecScale a.knn_embedding_weight_1 a.cls_1)
      (vecScale (1 - a.knn_embedding_weight_1) a.knn_cls_1)) := by
  rcases hname : a.classification_head_name with _ | name
  · simp [forward, hname, hmol, hmlp] at h
  · rcases hhead : m.heads name with _ | head
    · simp [forward, hname, hhead, hmol, hmlp] at h
    · simp [forward, hname, hhead, hmol, hmlp, fuse] at h
      exact ⟨h.2.1.symm, h.2.2.symm⟩

/-- C4 witness: a concrete precomputed-embedding call (mode `'pro'`, so not
mol_pro) whose second and third returned components are nevertheless the
blend-formula values. -/
theorem forward_mlp_returns_blends_witness :
    fuse (707/1000) (8/10) [10, 20] [1, 1] =
      vecScale (707/1000) (vecAdd (vecScale (8/10) [10, 20])
        (vecScale (1 - 8/10) [1, 1])) ∧
    fuse (707/1000) (8/10) [30, 40] [1, 1] =
      vecScale (707/1000) (vecAdd (vecScale (8/10) [30, 40])
        (vecScale (1 - 8/10) [1, 1])) := by
  refine forward_mlp_returns_blends exModel exArgsMlpOther
    (some [30, 40, 30, 40]) _ _ rfl rfl ?_
  simp [forward, exModel, exArgsMlpOther, gradMultiply]

/-- Concrete forward arguments: full dual-branch mode, head given, mode
`'no'`, with kNN neighbor embeddings supplied for both branches. -/
def exArgsRawConcat : ForwardArgs :=
  { src_tokens_0 := [5]
    src_tokens_1 := [6]
    classification_head_name := some "h"
    use_which_embedding := "no"
    knn_cls_0 := [9, 9]
    knn_cls_1 := [9, 9] }

/-- C9: in full dual-branch mode with a classification head given and
`use_which_embedding` equal to `'no'`, `'mol'` or `'pro'`, the input passed
to the classification head is the concatenation of the two raw pooled
embeddings, with no kNN blending, even when neighbor embeddings were
supplied. -/
theorem forward_full_other_modes_raw_concat (m : Model) (a : ForwardArgs)
    (name : String) (head : List ℚ → List ℚ)
    (hname : a.classification_head_name = some name)
    (hhead : m.heads name = some head)
    (hmode : a.use_which_embedding = "no" ∨ a.use_which_embedding = "mol" ∨
      a.use_which_embedding = "pro")
    (hmol : a.get_only_mol_cls = false)
    (hmlp : a.use_only_mlp = false) :
    forward m a = Except.ok (ForwardResult.triple
      (some (head (pooled (m.enc0 true a.src_tokens_0) ++
        pooled (m.enc1 true a.src_tokens_1))))
      (pooled (m.enc0 true a.src_tokens_0))
      (pooled (m.enc1 true a.src_tokens_1))) := by
  have hne : a.use_which_embedding ≠ "mol_pro" := by
    rcases hmode with h | h | h <;> rw [h] <;> decide
  simp [forward, hname, hhead, hne, hmol, hmlp, gradMultiply]

/-- C9 witness: with mode `'no'` and neighbor embeddings `[9, 9]` supplied,
the identity head receives the raw concatenation `[1, 2, 3, 4]`, untouched
by any blend. -/
theorem forward_full_other_modes_raw_concat_witness :
    forward exModel exArgsRawConcat = Except.ok (ForwardResult.triple
      (some [1, 2, 3, 4]) [1, 2] [3, 4]) := by
  have h := forward_full_other_modes_raw_concat exModel exArgsRawConcat "h"
    (fun v => v) rfl rfl (Or.inl rfl) rfl rfl
  simpa [exModel, pooled] using h

/-- C7: in `myextract_features_separate`, a molecule token sequence longer
than the molecule branch's max positions fails with a length-exceeded error
naming `tokens_0` and carrying the actual length and the limit; a protein
sequence longer than the protein limit (with the molecule sequence in
bounds) fails naming `tokens_1`; and when both sequences are within their
limits no length-exceeded error is raised. -/
theorem myextract_length_guard (m : Model) (tokens_0 tokens_1 : List Nat)
    (rah : Bool) (name : String) :
    (tokens_0.length > m.maxPos0 →
      myextract_features_separate m tokens_0 tokens_1 rah name =
        Except.error ⟨"tokens_0", tokens_0.length, m.maxPos0⟩) ∧
    (tokens_0.length ≤ m.maxPos0 → tokens_1.length > m.maxPos1 →
      myextract_features_separate m tokens_0 tokens_1 rah name =
        Except.error ⟨"tokens_1", tokens_1.length, m.maxPos1⟩) ∧
    (tokens_0.length ≤ m.maxPos0 → tokens_1.length ≤ m.maxPos1 →
      ∃ r, myextract_features_separate m tokens_0 tokens_1 rah name =
        Except.ok r) := by
  refine ⟨fun h0 => ?_, fun h0 h1 => ?_, fun h0 h1 => ?_⟩
  · simp [myextract_features_separate, h0]
  · simp [myextract_features_separate, Nat.not_lt.mpr h0, h1]
  · refine ⟨forward m
      { src_tokens_0 := tokens_0
        src_tokens_1 := tokens_1
        features_only := true
        return_all_hiddens := rah
        classification_head_name := some name }, ?_⟩
    simp [myextract_features_separate, Nat.not_lt.mpr h0, Nat.not_lt.mpr h1]

set_option maxRecDepth 4000 in
/-- C7 witness: with limits 512/1024, a molecule sequence of length 513
fails naming `tokens_0` with 513 > 512; a protein sequence of length 1025
fails naming `tokens_1` with 1025 > 1024; and an in-bounds pair yields a
successful (non-length-error) call. -/
theorem myextract_length_guard_witness :
    myextract_features_separate exModel (List.replicate 513 0) [0] false "h" =
      Except.error ⟨"tokens_0", 513, 512⟩ ∧
    myextract_features_separate exModel [0] (List.replicate 1025 0) false "h" =
      Except.error ⟨"tokens_1", 1025, 1024⟩ ∧
    ∃ r, myextract_features_separate exModel [0] [0] false "h" =
      Except.ok r := by
  refine ⟨?_, ?_, ?_⟩
  · have h := (myextract_length_guard exModel (List.replicate 513 0) [0] false
      "h").1 (by simp [exModel, List.length_replicate])
    simpa [exModel, List.length_replicate] using h
  · have h := (myextract_length_guard exModel [0] (List.replicate 1025 0) false
      "h").2.1 (by simp [exModel]) (by simp [exModel, List.length_replicate])
    simpa [exModel, List.length_replicate] using h
  · exact (myextract_length_guard exModel [0] [0] false "h").2.2
      (by simp [exModel]) (by simp [exModel])

/-! ## Theorems about the freezing policy -/

/-- The freezing the claim describes for the top-level child at index `i`:
the first 4 children (`i ≤ 3`) have every parameter's gradient tracking
disabled; in later children the direct parameters are untouched, sub-children
at index `j ≤ 11` have every parameter disabled, and later sub-children are
untouched. -/
def childFrozenSpec (i : Nat) (c f : Child) : Prop :=
  (i ≤ 3 → f.direct = c.direct.map (fun _ => false) ∧
    f.subs = c.subs.map (fun s => s.map (fun _ => false))) ∧
  (3 < i → f.direct = c.direct ∧
    ∀ j, (j ≤ 11 →
        f.subs.get? j = (c.subs.get? j).map (fun s => s.map (fun _ => false))) ∧
      (11 < j → f.subs.get? j = c.subs.get? j))

/-- The claim's freezing policy over a whole encoder's child list. -/
def encoderFrozenSpec (cs fs : List Child) : Prop :=
  fs.length = cs.length ∧
  ∀ i c f, cs.get? i = some c → fs.get? i = some f → childFrozenSpec i c f

theorem freezeSubs_get (n : Nat) (ss : List (List Bool)) (j : Nat) :
    (freezeSubs n ss).get? j =
      (ss.get? j).map
        (fun s => if n + j ≤ 11 then s.map (fun _ => false) else s) := by
  induction ss generalizing n j with
  | nil => simp [freezeSubs]
  | cons s rest ih =>
    cases j with
    | zero => simp [freezeSubs]
    | succ j =>
      have h := ih (n + 1) j
      simp only [freezeSubs, List.get?_cons_succ, h]
      have harith : n + 1 + j = n + (j + 1) := by omega
      rw [harith]

theorem freezeChildren_length (n : Nat) (cs : List Child) :
    (freezeChildren n cs).length = cs.length := by
  induction cs generalizing n with
  | nil => rfl
  | cons c rest ih => simp [freezeChildren, ih]

theorem freezeChildren_get (n : Nat) (cs : List Child) (i : Nat) :
    (freezeChildren n cs).get? i =
      (cs.get? i).map (fun c => freezeChild (n + i) c) := by
  induction cs generalizing n i with
  | nil => simp [freezeChildren]
  | cons c rest ih =>
    cases i with
    | zero => simp [freezeChildren]
    | succ i =>
      have h := ih (n + 1) i
      simp only [freezeChildren, List.get?_cons_succ, h]
      have harith : n + 1 + i = n + (i + 1) := by omega
      rw [harith]

theorem freezeChildren_frozenSpec (cs : List Child) :
    encoderFrozenSpec cs (freezeChildren 0 cs) := by
  refine ⟨freezeChildren_length 0 cs, fun i c f hc hf => ?_⟩
  rw [freezeChildren_get, hc] at hf
  have hfc : f = freezeChild i c := by
    simpa using hf.symm
  subst hfc
  constructor
  · intro hi
    simp [freezeChild, hi, freezeAllParams]
  · intro hi
    have hnotle : ¬ i ≤ 3 := by omega
    have hsubs : (freezeChild i c).subs = freezeSubs 0 c.subs := by
      simp [freezeChild, hnotle]
    refine ⟨by simp [freezeChild, hnotle], fun j => ?_⟩
    constructor
    · intro hj
      rw [hsubs, freezeSubs_get]
      simp [hj]
    · intro hj
      rw [hsubs, freezeSubs_get]
      have hjg : ¬ j ≤ 11 := by omega
      simp [hjg]

/-- C8: at build time, for each of the two branch encoders, gradient
tracking is disabled for every parameter of the first 4 top-level children
of the encoder's sentence encoder, and within each remaining top-level
child, for every parameter of its first 12 sub-children; parameters outside
this index-based prefix keep their gradient-tracking flag unchanged (in
particular enabled parameters stay enabled). -/
theorem buildModelFreeze_policy (enc0 enc1 : List Child) :
    encoderFrozenSpec enc0 (buildModelFreeze enc0 enc1).1 ∧
    encoderFrozenSpec enc1 (buildModelFreeze enc0 enc1).2 :=
  ⟨freezeChildren_frozenSpec enc0, freezeChildren_frozenSpec enc1⟩

/-- A concrete sentence-encoder child list: four leading children and a
fifth (index 4) with one direct parameter and 13 sub-children. -/
def exEncoderChildren : List Child :=
  [⟨[true], [[true]]⟩, ⟨[true], [[true]]⟩, ⟨[true], [[true]]⟩,
   ⟨[true], [[true]]⟩, ⟨[true], List.replicate 13 [true]⟩]

/-- C8 witness: the policy instantiated at a concrete encoder pair, together
with the explicit result — the first four children fully frozen, and in the
fifth only the first 12 of its 13 sub-children frozen while its direct
parameter stays enabled. -/
theorem buildModelFreeze_policy_witness :
    encoderFrozenSpec exEncoderChildren
      (buildModelFreeze exEncoderChildren exEncoderChildren).1 ∧
    buildModelFreeze exEncoderChildren exEncoderChildren =
      ([⟨[false], [[false]]⟩, ⟨[false], [[false]]⟩, ⟨[false], [[false]]⟩,
        ⟨[false], [[false]]⟩,
        ⟨[true], List.replicate 12 [false] ++ [[true]]⟩],
       [⟨[false], [[false]]⟩, ⟨[false], [[false]]⟩, ⟨[false], [[false]]⟩,
        ⟨[false], [[false]]⟩,
        ⟨[true], List.replicate 12 [false] ++ [[true]]⟩]) :=
  ⟨(buildModelFreeze_policy exEncoderChildren exEncoderChildren).1, by decide⟩

/-! ## Theorems about the state-dict transfer -/

theorem dictKeys_map_update {V : Type} (d : List (String × V)) (k : String)
    (v : V) :
    dictKeys (d.map (fun p => if p.1 = k then (k, v) else p)) = dictKeys d := by
  induction d with
  | nil => rfl
  | cons p rest ih =>
    by_cases hb : p.1 = k
    · simp only [dictKeys, List.map_cons, if_pos hb] at ih ⊢
      rw [ih, hb]
    · simp only [dictKeys, List.map_cons, if_neg hb] at ih ⊢
      rw [ih]

theorem dictKeys_dictSet {V : Type} (d : List (String × V)) (k : String)
    (v : V) (h : dictMem d k) :
    dictKeys (dictSet d k v) = dictKeys d := by
  unfold dictSet
  rw [if_pos h]
  exact dictKeys_map_update d k v

theorem dictMem_dictSet {V : Type} (d : List (String × V)) (k k' : String)
    (v : V) (h : dictMem d k) :
    dictMem (dictSet d k v) k' ↔ dictMem d k' := by
  unfold dictMem
  rw [dictKeys_dictSet d k v h]

theorem dictGet_map_update_self {V : Type} (d : List (String × V))
    (k : String) (v : V) (h : dictMem d k) :
    dictGet (d.map (fun p => if p.1 = k then (k, v) else p)) k = some v := by
  induction d with
  | nil => exact absurd h (by simp [dictMem, dictKeys])
  | cons p rest ih =>
    by_cases hb : p.1 = k
    · simp [dictGet, hb]
    · have hrest : dictMem rest k := by
        rcases (by simpa [dictMem, dictKeys] using h : k = p.1 ∨ k ∈ dictKeys rest) with h1 | h2
        · exact absurd h1.symm hb
        · exact h2
      simp only [List.map_cons, if_neg hb, dictGet]
      exact ih hrest

theorem dictGet_dictSet_self {V : Type} (d : List (String × V)) (k : String)
    (v : V) (h : dictMem d k) :
    dictGet (dictSet d k v) k = some v := by
  unfold dictSet
  rw [if_pos h]
  exact dictGet_map_update_self d k v h

theorem dictGet_map_update_ne {V : Type} (d : List (String × V))
    (k k' : String) (v : V) (h : k' ≠ k) :
    dictGet (d.map (fun p => if p.1 = k then (k, v) else p)) k' =
      dictGet d k' := by
  induction d with
  | nil => rfl
  | cons p rest ih =>
    by_cases hb : p.1 = k
    · have h1 : ¬ k = k' := fun hc => h hc.symm
      have h2 : ¬ p.1 = k' := by rw [hb]; exact h1
      simp only [List.map_cons, if_pos hb, dictGet]
      rw [if_neg h1, if_neg h2]
      exact ih
    · simp only [List.map_cons, if_neg hb, dictGet]
      by_cases h2 : p.1 = k'
      · rw [if_pos h2, if_pos h2]
      · rw [if_neg h2, if_neg h2]
        exact ih

theorem dictGet_append_single_ne {V : Type} (d : List (String × V))
    (k k' : String) (v : V) (h : k' ≠ k) :
    dictGet (d ++ [(k, v)]) k' = dictGet d k' := by
  induction d with
  | nil =>
    have h1 : ¬ k = k' := fun hc => h hc.symm
    simp [dictGet, h1]
  | cons p rest ih =>
    by_cases hb : p.1 = k'
    · simp [dictGet, hb]
    · simp only [List.cons_append, dictGet]
      rw [if_neg hb, if_neg hb]
      exact ih

theorem dictGet_dictSet_ne {V : Type} (d : List (String × V)) (k k' : String)
    (v : V) (h : k' ≠ k) :
    dictGet (dictSet d k v) k' = dictGet d k' := by
  unfold dictSet
  by_cases hmem : dictMem d k
  · rw [if_pos hmem]
    exact dictGet_map_update_ne d k k' v h
  · rw [if_neg hmem]
    exact dictGet_append_single_ne d k k' v h

theorem dictKeys_upgradeLoop {V : Type} (es : List (String × V))
    (sd : List (String × V)) (i : Nat) :
    dictKeys (upgradeLoop sd es i).1 = dictKeys sd := by
  induction es generalizing sd i with
  | nil => rfl
  | cons p rest ih =>
    obtain ⟨key, v⟩ := p
    unfold upgradeLoop
    by_cases hs : pyStartsWith key "encoder"
    · by_cases hmem : dictMem sd (pyDrop key 8)
      · rw [if_pos hs, if_pos hmem]
        exact (ih (dictSet sd (pyDrop key 8) v) (i + 1)).trans
          (dictKeys_dictSet sd (pyDrop key 8) v hmem)
      · rw [if_pos hs, if_neg hmem]
        exact ih sd i
    · rw [if_neg hs]
      exact ih sd i

theorem lastTransferredValue_none {V : Type} (es : List (String × V))
    (k : String) (h : lastTransferredValue es k = none) :
    ∀ p ∈ es, ¬ (pyStartsWith p.1 "encoder" = true ∧ pyDrop p.1 8 = k) := by
  induction es with
  | nil => intro p hp; cases hp
  | cons q rest ih =>
    intro p hp
    rcases hl : lastTransferredValue rest k with _ | w
    · rcases List.mem_cons.mp hp with hp | hp
      · subst hp
        intro hc
        unfold lastTransferredValue at h
        rw [hl] at h
        rw [if_pos hc] at h
        exact Option.noConfusion h
      · have hnone : lastTransferredValue rest k = none := hl
        exact ih hnone p hp
    · unfold lastTransferredValue at h
      rw [hl] at h
      exact Option.noConfusion h

theorem upgradeLoop_get_no_match {V : Type} (es : List (String × V))
    (sd : List (String × V)) (i : Nat) (k : String)
    (h : ∀ p ∈ es, ¬ (pyStartsWith p.1 "encoder" = true ∧ pyDrop p.1 8 = k)) :
    dictGet (upgradeLoop sd es i).1 k = dictGet sd k := by
  induction es generalizing sd i with
  | nil => rfl
  | cons p rest ih =>
    obtain ⟨key, v⟩ := p
    have hrest : ∀ q ∈ rest,
        ¬ (pyStartsWith q.1 "encoder" = true ∧ pyDrop q.1 8 = k) :=
      fun q hq => h q (List.mem_cons_of_mem _ hq)
    unfold upgradeLoop
    by_cases hs : pyStartsWith key "encoder"
    · have hne : pyDrop key 8 ≠ k := by
        intro hc
        exact h (key, v) (List.mem_cons_self _ _) ⟨hs, hc⟩
      by_cases hmem : dictMem sd (pyDrop key 8)
      · rw [if_pos hs, if_pos hmem]
        rw [ih (dictSet sd (pyDrop key 8) v) (i + 1) hrest]
        exact dictGet_dictSet_ne sd (pyDrop key 8) k v (fun hc => hne hc.symm)
      · rw [if_pos hs, if_neg hmem]
        exact ih sd i hrest
    · rw [if_neg hs]
      exact ih sd i hrest

theorem upgradeLoop_get_last_match {V : Type} (es : List (String × V))
    (sd : List (String × V)) (i : Nat) (k : String) (v : V)
    (h : lastTransferredValue es k = some v) (hmem : dictMem sd k) :
    dictGet (upgradeLoop sd es i).1 k = some v := by
  induction es generalizing sd i with
  | nil => exact Option.noConfusion h
  | cons p rest ih =>
    obtain ⟨key, w⟩ := p
    rcases hl : lastTransferredValue rest k with _ | u
    · -- the head entry is the last (and only remaining) match
      have hhead : pyStartsWith key "encoder" = true ∧ pyDrop key 8 = k ∧ w = v := by
        unfold lastTransferredValue at h
        rw [hl] at h
        by_cases hc : pyStartsWith key "encoder" = true ∧ pyDrop key 8 = k
        · rw [if_pos hc] at h
          exact ⟨hc.1, hc.2, Option.some.inj h⟩
        · rw [if_neg hc] at h
          exact Option.noConfusion h
      obtain ⟨hs, hdrop, hwv⟩ := hhead
      unfold upgradeLoop
      rw [if_pos hs]
      have hmem2 : dictMem sd (pyDrop key 8) := by rw [hdrop]; exact hmem
      rw [if_pos hmem2]
      rw [upgradeLoop_get_no_match rest _ (i + 1) k
        (lastTransferredValue_none rest k hl)]
      rw [hdrop, hwv]
      exact dictGet_dictSet_self sd k v hmem
    · have hu : u = v := by
        unfold lastTransferredValue at h
        rw [hl] at h
        exact Option.some.inj h
      subst hu
      unfold upgradeLoop
      by_cases hs : pyStartsWith key "encoder"
      · by_cases hmem2 : dictMem sd (pyDrop key 8)
        · rw [if_pos hs, if_pos hmem2]
          exact ih (dictSet sd (pyDrop key 8) w) (i + 1) hl
            ((dictMem_dictSet sd (pyDrop key 8) k w hmem2).mpr hmem)
        · rw [if_pos hs, if_neg hmem2]
          exact ih sd i hl hmem
      · rw [if_neg hs]
        exact ih sd i hl hmem

theorem upgradeLoop_no_overlap {V : Type} (es : List (String × V))
    (sd : List (String × V)) (i : Nat)
    (h : ∀ p ∈ es, pyStartsWith p.1 "encoder" = true →
      ¬ dictMem sd (pyDrop p.1 8)) :
    upgradeLoop sd es i = (sd, i) := by
  induction es generalizing i with
  | nil => rfl
  | cons p rest ih =>
    obtain ⟨key, v⟩ := p
    have hrest : ∀ q ∈ rest, pyStartsWith q.1 "encoder" = true →
        ¬ dictMem sd (pyDrop q.1 8) :=
      fun q hq => h q (List.mem_cons_of_mem _ hq)
    unfold upgradeLoop
    by_cases hs : pyStartsWith key "encoder"
    · have hmem : ¬ dictMem sd (pyDrop key 8) :=
        h (key, v) (List.mem_cons_self _ _) hs
      rw [if_pos hs, if_neg hmem]
      exact ih i hrest
    · rw [if_neg hs]
      exact ih i hrest

/-- C10: the mapping returned by `upgrade_state_dict_with_roberta_weights`
has exactly the key list of the input target mapping, whatever the
checkpoint contains: the transfer only overwrites values of existing target
keys and never adds or removes a key. -/
theorem upgrade_preserves_target_keys {V : Type}
    (sd rb : List (String × V)) :
    dictKeys (upgrade_state_dict_with_roberta_weights sd rb).1 = dictKeys sd :=
  dictKeys_upgradeLoop (renameLegacy rb) sd 0

/-- C5 counterexample: the claim says only source keys with the `'encoder.'`
prefix (stripped) can overwrite target keys, so a checkpoint whose single
key is `"encoderXab"` — which does not start with `'encoder.'` — should
leave the target `{"ab": 0}` unchanged with a transferred count of 0. The
code instead tests `startswith("encoder")` and strips 8 characters
unconditionally, overwriting `"ab"` and counting 1 transfer. -/
theorem upgrade_strips_eight_chars_cex :
    upgrade_state_dict_with_roberta_weights [("ab", (0 : Int))]
      [("encoderXab", 1)] = ([("ab", 1)], 1) ∧
    pyStartsWith "encoderXab" "encoder." = false := by
  constructor
  · decide
  · decide

/-- C5 amended: a target entry at key `k` is overwritten exactly when some
checkpoint key (after the legacy renames of the exact keys
`encoder.sentence_encoder.layernorm_embedding.weight` / `.bias` to the
`emb_layer_norm` names) starts with `"encoder"` — not necessarily
`"encoder."` — and equals `k` after dropping its first 8 characters; the
value written is that of the last such checkpoint entry in iteration order;
every non-matching target entry is left unchanged; and with zero overlapping
keys the target mapping is returned unchanged with a transferred count
of 0. -/
theorem upgrade_transfer_characterization {V : Type}
    (sd rb : List (String × V)) (k : String) :
    (lastTransferredValue (renameLegacy rb) k = none →
      dictGet (upgrade_state_dict_with_roberta_weights sd rb).1 k =
        dictGet sd k) ∧
    (∀ v, lastTransferredValue (renameLegacy rb) k = some v → dictMem sd k →
      dictGet (upgrade_state_dict_with_roberta_weights sd rb).1 k = some v) ∧
    ((∀ p ∈ renameLegacy rb, pyStartsWith p.1 "encoder" = true →
        ¬ dictMem sd (pyDrop p.1 8)) →
      upgrade_state_dict_with_roberta_weights sd rb = (sd, 0)) := by
  refine ⟨fun h => ?_, fun v h hmem => ?_, fun h => ?_⟩
  · exact upgradeLoop_get_no_match (renameLegacy rb) sd 0 k
      (lastTransferredValue_none (renameLegacy rb) k h)
  · exact upgradeLoop_get_last_match (renameLegacy rb) sd 0 k v h hmem
  · exact upgradeLoop_no_overlap (renameLegacy rb) sd 0 h

/-- C5 witness: at concrete dicts — a checkpoint holding only the legacy
`layernorm_embedding` key transfers (after rename and prefix-stripping) to
the target's `emb_layer_norm` key, a non-matching target entry stays
unchanged, and a checkpoint with zero overlap returns the target unchanged
with count 0. -/
theorem upgrade_transfer_characterization_witness :
    dictGet (upgrade_state_dict_with_roberta_weights
      [("sentence_encoder.emb_layer_norm.weight", (0 : Int)), ("other", 5)]
      [("encoder.sentence_encoder.layernorm_embedding.weight", 7)]).1
      "sentence_encoder.emb_layer_norm.weight" = some 7 ∧
    dictGet (upgrade_state_dict_with_roberta_weights
      [("sentence_encoder.emb_layer_norm.weight", (0 : Int)), ("other", 5)]
      [("encoder.sentence_encoder.layernorm_embedding.weight", 7)]).1
      "other" = some 5 ∧
    upgrade_state_dict_with_roberta_weights [("b", (1 : Int))] [("xyz", 5)] =
      ([("b", 1)], 0) := by
  refine ⟨?_, ?_, ?_⟩
  · exact (upgrade_transfer_characterization
      [("sentence_encoder.emb_layer_norm.weight", (0 : Int)), ("other", 5)]
      [("encoder.sentence_encoder.layernorm_embedding.weight", 7)]
      "sentence_encoder.emb_layer_norm.weight").2.1 7 (by decide) (by decide)
  · exact ((upgrade_transfer_characterization
      [("sentence_encoder.emb_layer_norm.weight", (0 : Int)), ("other", 5)]
      [("encoder.sentence_encoder.layernorm_embedding.weight", 7)]
      "other").1 (by decide)).trans (by decide)
  · exact (upgrade_transfer_characterization [("b", (1 : Int))] [("xyz", 5)]
      "b").2.2 (by decide)

/-! ## Theorem about the max-position defaults -/

/-- C6 evaluation: on a configuration that supplies neither per-branch
max-position value, the default lines of `build_model` assign 512 and 1024
to `max_source_positions` / `max_target_positions` — attributes nothing in
the model reads — while `max_positions_molecule` / `max_positions_protein`,
the attributes the branch encoders actually read as their limits, remain
absent. The claimed defaults therefore never become the enforced per-branch
limits; instead encoder construction reads a missing attribute. -/
theorem maxPositionDefaults_miswired :
    applyMaxPositionDefaults ⟨none, none, none, none⟩ =
      ⟨none, none, some DEFAULT_MAX_MOLECULE_POSITIONS,
        some DEFAULT_MAX_PROTEIN_POSITIONS⟩ ∧
    moleculeEncoderMaxPositions
      (applyMaxPositionDefaults ⟨none, none, none, none⟩) = none ∧
    proteinEncoderMaxPositions
      (applyMaxPositionDefaults ⟨none, none, none, none⟩) = none := by
  refine ⟨rfl, rfl, rfl⟩

end KNNDTA
